import Mathlib

/-!
Shallow embedding of `src/chess.py` (lichess rating-report script).

Dates are modelled as day numbers (days since 1970-01-01, as an `Int`);
`daysFromCivilNat` is the standard civil-calendar conversion, and
`normDate` performs the script's `datetime(year, month + 1, day)` call:
it normalizes the zero-based month and yields `none` exactly when Python
would raise `ValueError`.

The reconstruction core of `fetch_last_30_day_rating_for_player` is
embedded as `buildSeries`: the script initializes the last `DAYS_BACK`
days to `-1`, overwrites the dates that carry an observation, and then
walks the dates in ascending order replacing `-1` entries by the running
`last_known_rating` (seeded from the latest observation strictly before
`today - 30`).  A series value of `none` models the `None` that is
formatted as the string `"No rating found"`.

The aggregation of `generate_rating_csv_for_top_50_classical_players`
is embedded as `generate_rating_csv_rows`: per-player results inserted
in completion order, reference-date values extracted (`0` default for an
empty per-player dict), and a stable descending Python sort whose
comparison raises `TypeError` (modelled by `Option`) when an integer
rating meets the string `"No rating found"`.
-/

namespace ChessApi

/-- `DAYS_BACK` from the script: the window has 31 dates. -/
def DAYS_BACK : Nat := 31

/-- Leap-year test of the proleptic Gregorian calendar (as in Python's
`datetime`). -/
def isLeap (y : Int) : Bool :=
  decide ((y % 4 = 0 ∧ y % 100 ≠ 0) ∨ y % 400 = 0)

/-- Number of days in a month, as validated by `datetime`. -/
def daysInMonth (y m : Int) : Int :=
  if m = 2 then (if isLeap y then 29 else 28)
  else if m = 4 ∨ m = 6 ∨ m = 9 ∨ m = 11 then 30
  else 31

/-- Validity of a `datetime(year, month, day)` construction (one-based
month); `false` means Python raises `ValueError`. -/
def isValidDate (y m d : Int) : Bool :=
  decide (1 ≤ y ∧ y ≤ 9999 ∧ 1 ≤ m ∧ m ≤ 12 ∧ 1 ≤ d ∧ d ≤ daysInMonth y m)

/-- Day number (days since 1970-01-01) of a valid civil date with
one-based month; the standard era/year-of-era computation, carried out
in `Nat` (the arguments are expected to satisfy `isValidDate`). -/
def daysFromCivilNat (y m d : Nat) : Int :=
  let yy := if m ≤ 2 then y - 1 else y
  let era := yy / 400
  let yoe := yy - era * 400
  let mp := (m + 9) % 12
  let doy := (153 * mp + 2) / 5 + d - 1
  let doe := yoe * 365 + yoe / 4 - yoe / 100 + doy
  ((era * 146097 + doe : Nat) : Int) - 719468

/-- `datetime(year, month + 1, day).date()` on one raw observation:
normalizes the zero-based month and returns the day number, or `none`
for Python's `ValueError`. -/
def normDate (y m0 d : Int) : Option Int :=
  if isValidDate y (m0 + 1) d then
    some (daysFromCivilNat y.toNat (m0 + 1).toNat d.toNat)
  else none

/-- A raw wire observation `(year, zero_based_month, day, rating)`. -/
abbrev RawPoint := Int × Int × Int × Int

/-- Python-dict insertion `m[k] = v`: overwrite the existing entry for
`k`, else append; keeps keys unique. -/
def insertLast (m : List (Int × Int)) (k v : Int) : List (Int × Int) :=
  if m.any (fun p => p.1 == k) then
    m.map (fun p => if p.1 == k then (k, v) else p)
  else m ++ [(k, v)]

/-- The `classical_ratings` dict comprehension: builds the date-to-rating
dict left to right (later duplicates of a date overwrite earlier ones);
`none` models the `ValueError` that aborts the whole comprehension when
any single observation is an invalid calendar date. -/
def classicalRatingsGo (acc : List (Int × Int)) :
    List RawPoint → Option (List (Int × Int))
  | [] => some acc
  | q :: rest =>
    match normDate q.1 q.2.1 q.2.2.1 with
    | none => none
    | some dd => classicalRatingsGo (insertLast acc dd q.2.2.2) rest

/-- `classical_ratings` built from the raw `points` list. -/
def classicalRatings (pts : List RawPoint) : Option (List (Int × Int)) :=
  classicalRatingsGo [] pts

/-- Dict lookup `classical_ratings.get(d)` (keys are unique, so the
first match is the entry). -/
def lookupRating (m : List (Int × Int)) (d : Int) : Option Int :=
  (m.find? (fun p => p.1 == d)).map Prod.snd

/-- Keep the entry with the larger key (the earlier one on ties). -/
def pickMax (acc : Option (Int × Int)) (p : Int × Int) : Option (Int × Int) :=
  match acc with
  | none => some p
  | some q => if q.1 < p.1 then some p else some q

/-- The entry with the largest key of a list (first such entry on equal
keys, which cannot happen for dict-built lists). -/
def maxEntry (l : List (Int × Int)) : Option (Int × Int) :=
  l.foldl pickMax none

/-- The entry with the largest key strictly below `c`: this is what the
script's descending scan `for date in sorted(keys, reverse=True):
if date < today - 30: last_known = ...; break` selects. -/
def latestBefore (m : List (Int × Int)) (c : Int) : Option (Int × Int) :=
  maxEntry (m.filter (fun p => decide (p.1 < c)))

/-- The entry with the largest key at or below `c` (first on equal
keys). -/
def latestAtOrBefore (m : List (Int × Int)) (c : Int) : Option (Int × Int) :=
  maxEntry (m.filter (fun p => decide (p.1 ≤ c)))

/-- The seed `last_known_rating` before the window: rating of the latest
observation dated strictly before `today - 30`, else `None`. -/
def seedRating (m : List (Int × Int)) (today : Int) : Option Int :=
  (latestBefore m (today - 30)).map Prod.snd

/-- One date of the script's forward pass.  After the fill loop,
`rating_by_day[d]` is the observed rating if an observation exists at
`d` and `-1` otherwise; the pass replaces a `-1` entry by the running
`last_known_rating` (so an observed rating of exactly `-1` is treated
as a hole), and otherwise updates `last_known_rating`.  Returns
(assigned value, new `last_known_rating`). -/
def fillStep (m : List (Int × Int)) (lk : Option Int) (d : Int) :
    Option Int × Option Int :=
  match lookupRating m d with
  | some r => if r = -1 then (lk, lk) else (some r, some r)
  | none => (lk, lk)

/-- `[a, a+1, ..., a+n-1]`. -/
def ascRange (a : Int) : Nat → List Int
  | 0 => []
  | n + 1 => a :: ascRange (a + 1) n

/-- The window dates `sorted(rating_by_day.keys())`, ascending:
`today - 30, ..., today` (`DAYS_BACK = 31` dates). -/
def windowDates (today : Int) : List Int :=
  ascRange (today - ((DAYS_BACK : Int) - 1)) DAYS_BACK

/-- The forward pass over a list of dates, producing date/value pairs. -/
def seriesGo (m : List (Int × Int)) (lk : Option Int) :
    List Int → List (Int × Option Int)
  | [] => []
  | d :: ds => (d, (fillStep m lk d).1) :: seriesGo m (fillStep m lk d).2 ds

/-- The `last_known_rating` state after walking a list of dates. -/
def lkAfter (m : List (Int × Int)) (lk : Option Int) : List Int → Option Int
  | [] => lk
  | d :: ds => lkAfter m (fillStep m lk d).2 ds

/-- The reconstructed daily series of
`fetch_last_30_day_rating_for_player`, given the parsed
`classical_ratings` dict: one entry per window date, `none` standing for
the `"No rating found"` marker. -/
def buildSeries (m : List (Int × Int)) (today : Int) :
    List (Int × Option Int) :=
  seriesGo m (seedRating m today) (windowDates today)

/-- Series reconstruction straight from the raw `points` list: `none`
models the `ValueError` path (the function falls through and returns
Python `None`). -/
def reconstruct (pts : List RawPoint) (today : Int) :
    Option (List (Int × Option Int)) :=
  (classicalRatings pts).map (fun m => buildSeries m today)

/-- Possible rating-history responses for one player, as seen by
`fetch_last_30_day_rating_for_player` after the HTTP layer. -/
inductive Outcome
  | err
  | noCategory
  | history (pts : List RawPoint)

/-- `fetch_last_30_day_rating_for_player`: `Outcome.err` is a
`RequestException`/JSON `ValueError` (caught, function returns `None`,
modelled `none`); a missing `Classical` category returns the empty dict
`{}` (modelled `some []`); otherwise the series is reconstructed (which
may itself hit the date `ValueError` and return `None`). -/
def fetch_last_30_day_rating_for_player (today : Int) :
    Outcome → Option (List (Int × Option Int))
  | Outcome.err => none
  | Outcome.noCategory => some []
  | Outcome.history pts => reconstruct pts today

/-- Series lookup by date (unique keys). -/
def lookupSeries (s : List (Int × Option Int)) (d : Int) :
    Option (Option Int) :=
  (s.find? (fun p => p.1 == d)).map Prod.snd

/-- One CSV value cell: `''` (player dict empty or date missing),
`"No rating found"`, or an integer rating. -/
inductive Cell
  | blank
  | noRating
  | rating (r : Int)
deriving DecidableEq

/-- `ratings[username].get(date, '')` for one date. -/
def cellAt (fr : Option (List (Int × Option Int))) (d : Int) : Cell :=
  match fr with
  | none => Cell.blank
  | some s =>
    match lookupSeries s d with
    | none => Cell.blank
    | some none => Cell.noRating
    | some (some r) => Cell.rating r

/-- The value cells of one CSV row, aligned with the ascending `dates`
header. -/
def rowCells (fr : Option (List (Int × Option Int))) (today : Int) :
    List Cell :=
  (windowDates today).map (cellAt fr)

/-- A Python value that can appear in `latest_ratings`: an integer, or
the string `"No rating found"`. -/
inductive LV
  | int (n : Int)
  | nrf
deriving DecidableEq

/-- `player_ratings.get(today, 0)`: `0` when the per-player dict is
empty (error or missing category), the string marker when the series
has no rating at the reference date, else that rating. -/
def latestLV (fr : Option (List (Int × Option Int))) (today : Int) : LV :=
  match fr with
  | none => LV.int 0
  | some s =>
    match lookupSeries s today with
    | none => LV.int 0
    | some none => LV.nrf
    | some (some r) => LV.int r

/-- Python `<` on the sort keys: comparing an `int` with the string
`"No rating found"` raises `TypeError` (`none`). -/
def pyLt : LV → LV → Option Bool
  | LV.int a, LV.int b => some (decide (a < b))
  | LV.nrf, LV.nrf => some false
  | _, _ => none

/-- Stable descending insertion: the new element goes before the first
existing element whose key is strictly smaller, so ties keep their
insertion (completion) order, as Python's stable `sorted(...,
reverse=True)` does.  `none` propagates a `TypeError`. -/
def insertD (x : String × LV) :
    List (String × LV) → Option (List (String × LV))
  | [] => some [x]
  | y :: ys =>
    match pyLt y.2 x.2 with
    | none => none
    | some true => some (x :: y :: ys)
    | some false => (insertD x ys).map (fun zs => y :: zs)

/-- Left-to-right stable sort accumulator. -/
def sortDGo (acc : List (String × LV)) :
    List (String × LV) → Option (List (String × LV))
  | [] => some acc
  | x :: xs =>
    match insertD x acc with
    | none => none
    | some acc2 => sortDGo acc2 xs

/-- `sorted(latest_ratings, key=latest_ratings.get, reverse=True)`:
stable descending sort of the completion-ordered username/value pairs;
`none` models the uncaught `TypeError` on mixed `int`/`str` values. -/
def sortD (l : List (String × LV)) : Option (List (String × LV)) :=
  sortDGo [] l

/-- The pure content of
`generate_rating_csv_for_top_50_classical_players` after the thread
pool has drained: `order` is the completion order of the futures
(`as_completed`), `fetch` the per-username result.  Produces the CSV
body rows, or `none` when the sort raises. -/
def generate_rating_csv_rows (today : Int)
    (fetch : String → Option (List (Int × Option Int)))
    (order : List String) : Option (List (String × List Cell)) :=
  (sortD (order.map (fun u => (u, latestLV (fetch u) today)))).map
    (fun m => m.map (fun p => (p.1, rowCells (fetch p.1) today)))

/-- JSON values, as returned by `resp.json()`. -/
inductive Json
  | obj (fields : List (String × Json))
  | arr (elems : List Json)
  | str (s : String)
  | num (n : Int)
  | jbool (b : Bool)
  | null

/-- Substring test, for Python's `needle in string`. -/
def strContains (hay needle : String) : Bool :=
  (hay.splitOn needle).length ≥ 2

/-- Python's `'users' in data`: key test on a dict, membership on a
list, substring test on a string; `TypeError` (`none`) otherwise. -/
def pyContains (needle : String) : Json → Option Bool
  | Json.obj fields => some (fields.any (fun p => p.1 == needle))
  | Json.arr elems =>
    some (elems.any (fun e =>
      match e with
      | Json.str s => s == needle
      | _ => false))
  | Json.str s => some (strContains s needle)
  | _ => none

/-- Python's `data['users']` with a string key: only a dict supports
it (`none` is a raised `KeyError`/`TypeError`). -/
def pyGetItem (j : Json) (k : String) : Option Json :=
  match j with
  | Json.obj fields => (fields.find? (fun p => p.1 == k)).map Prod.snd
  | _ => none

/-- Python's `x[:n]`: slices a list or a string, `TypeError` else. -/
def pySlice (j : Json) (n : Nat) : Option Json :=
  match j with
  | Json.arr l => some (Json.arr (l.take n))
  | Json.str s => some (Json.str (s.take n))
  | _ => none

/-- Leaderboard responses: transport failure (`RequestException`),
JSON parse failure (`ValueError`), or a parsed payload. -/
inductive Resp
  | transportErr
  | parseErr
  | ok (j : Json)

/-- `fetch_top_classical_players`: returns the `players` value together
with a flag telling whether a diagnostic was printed; `none` models an
exception escaping to the caller (e.g. `TypeError` from `'users' in
data` on a non-container payload, or from slicing a non-sliceable
`data['users']`). -/
def fetch_top_classical_players (n : Nat) (r : Resp) :
    Option (Json × Bool) :=
  match r with
  | Resp.transportErr => some (Json.arr [], true)
  | Resp.parseErr => some (Json.arr [], true)
  | Resp.ok j =>
    match pyContains "users" j with
    | none => none
    | some false => some (Json.arr [], true)
    | some true =>
      match pyGetItem j "users" with
      | none => none
      | some v => (pySlice v n).map (fun p => (p, false))

/-- "This outcome carries no data for the configured category": the
category is absent, or every raw observation either fails to parse or
is dated strictly after the reference date (hence after every window
date). -/
def unknownData (today : Int) : Outcome → Bool
  | Outcome.err => false
  | Outcome.noCategory => true
  | Outcome.history pts =>
    pts.all (fun q =>
      match normDate q.1 q.2.1 q.2.2.1 with
      | some dd => decide (today < dd)
      | none => true)

/-- A cell that displays an actual rating. -/
def Cell.isRating : Cell → Bool
  | Cell.rating _ => true
  | _ => false

/-- Integer view of a sort key, for reasoning about all-integer runs. -/
def keyI : LV → Int
  | LV.int n => n
  | LV.nrf => 0

/-! ## Basic lemmas about the window and the forward pass -/

theorem ascRange_length (a : Int) (n : Nat) : (ascRange a n).length = n := by
  induction n generalizing a with
  | zero => rfl
  | succ k ih => simp [ascRange, ih]

theorem mem_ascRange {d a : Int} {n : Nat} :
    d ∈ ascRange a n ↔ a ≤ d ∧ d < a + n := by
  induction n generalizing a with
  | zero =>
    constructor
    · intro h; simp [ascRange] at h
    · intro h
      exfalso
      push_cast at h
      omega
  | succ k ih =>
    simp only [ascRange, List.mem_cons, ih]
    push_cast
    constructor
    · rintro (rfl | ⟨h1, h2⟩) <;> omega
    · intro h
      by_cases hd : d = a
      · exact Or.inl hd
      · exact Or.inr (by omega)

theorem ascRange_append (i j : Nat) (a : Int) :
    ascRange a (i + j) = ascRange a i ++ ascRange (a + i) j := by
  induction i generalizing a with
  | zero => simp [ascRange]
  | succ k ih =>
    rw [show k + 1 + j = (k + j) + 1 by omega]
    show a :: ascRange (a + 1) (k + j) =
      (a :: ascRange (a + 1) k) ++ ascRange (a + (k + 1 : Nat)) j
    rw [ih (a + 1), List.cons_append,
      show a + 1 + (k : Int) = a + ((k + 1 : Nat) : Int) by push_cast; omega]

theorem ascRange_chain (a : Int) (n : Nat) :
    List.Chain' (fun x y => y = x + 1) (ascRange a n) := by
  induction n generalizing a with
  | zero => simp [ascRange]
  | succ k ih =>
    cases k with
    | zero => simp [ascRange]
    | succ k2 =>
      rw [show ascRange a (k2 + 1 + 1) = a :: ascRange (a + 1) (k2 + 1) from rfl,
        show ascRange (a + 1) (k2 + 1) = (a + 1) :: ascRange (a + 1 + 1) k2 from rfl,
        List.chain'_cons]
      exact ⟨rfl, ih (a + 1)⟩

theorem ascRange_getLast (a : Int) (n : Nat) :
    (ascRange a (n + 1)).getLast? = some (a + n) := by
  induction n generalizing a with
  | zero => simp [ascRange]
  | succ k ih =>
    rw [show ascRange a (k + 1 + 1) = a :: ascRange (a + 1) (k + 1) from rfl,
      show ascRange (a + 1) (k + 1) = (a + 1) :: ascRange (a + 1 + 1) k from rfl,
      List.getLast?_cons_cons,
      show (a + 1) :: ascRange (a + 1 + 1) k = ascRange (a + 1) (k + 1) from rfl,
      ih (a + 1)]
    congr 1
    push_cast
    omega

theorem windowDates_eq (today : Int) :
    windowDates today = ascRange (today - 30) 31 := by
  norm_num [windowDates, DAYS_BACK]

theorem seriesGo_fst (m : List (Int × Int)) (lk : Option Int) (ds : List Int) :
    (seriesGo m lk ds).map Prod.fst = ds := by
  induction ds generalizing lk with
  | nil => rfl
  | cons d rest ih => simp [seriesGo, ih]

theorem fillStep_fst_eq_snd (m : List (Int × Int)) (lk : Option Int) (d : Int) :
    (fillStep m lk d).1 = (fillStep m lk d).2 := by
  unfold fillStep
  cases lookupRating m d with
  | none => rfl
  | some r =>
    by_cases hr : r = -1 <;> simp [hr]

theorem fillStep_of_none {m : List (Int × Int)} {d : Int}
    (h : lookupRating m d = none) (lk : Option Int) :
    fillStep m lk d = (lk, lk) := by
  simp [fillStep, h]

theorem seriesGo_append (m : List (Int × Int)) (lk : Option Int)
    (ds1 ds2 : List Int) :
    seriesGo m lk (ds1 ++ ds2) =
      seriesGo m lk ds1 ++ seriesGo m (lkAfter m lk ds1) ds2 := by
  induction ds1 generalizing lk with
  | nil => rfl
  | cons d rest ih => simp [seriesGo, lkAfter, ih]

theorem lkAfter_append (m : List (Int × Int)) (lk : Option Int)
    (ds1 ds2 : List Int) :
    lkAfter m lk (ds1 ++ ds2) = lkAfter m (lkAfter m lk ds1) ds2 := by
  induction ds1 generalizing lk with
  | nil => rfl
  | cons d rest ih => simp [lkAfter, ih]

theorem lookupRating_eq_none {m : List (Int × Int)} {d : Int}
    (h : ∀ p ∈ m, p.1 ≠ d) : lookupRating m d = none := by
  unfold lookupRating
  rw [List.find?_eq_none.2]
  · rfl
  · intro p hp
    simpa using h p hp

theorem exists_of_lookupRating {m : List (Int × Int)} {d r : Int}
    (h : lookupRating m d = some r) : ∃ p ∈ m, p.1 = d ∧ p.2 = r := by
  unfold lookupRating at h
  cases hf : m.find? (fun p => p.1 == d) with
  | none => rw [hf] at h; cases h
  | some p =>
    rw [hf] at h
    have h1 := List.find?_some hf
    have h2 := List.mem_of_find?_eq_some hf
    simp only [Option.map_some', Option.some.injEq] at h
    simp only [beq_iff_eq] at h1
    exact ⟨p, h2, h1, h⟩

theorem lkAfter_of_no_obs {m : List (Int × Int)} {ds : List Int}
    (h : ∀ d ∈ ds, lookupRating m d = none) (lk : Option Int) :
    lkAfter m lk ds = lk := by
  induction ds generalizing lk with
  | nil => rfl
  | cons d rest ih =>
    rw [lkAfter, fillStep_of_none (h d (by simp))]
    exact ih (fun e he => h e (by simp [he])) lk

theorem lookupSeries_cons (e : Int) (v : Option Int)
    (s : List (Int × Option Int)) (d : Int) :
    lookupSeries ((e, v) :: s) d =
      if e = d then some v else lookupSeries s d := by
  by_cases he : e = d
  · simp [lookupSeries, List.find?_cons_of_pos, he]
  · simp only [lookupSeries, he, if_false]
    rw [List.find?_cons_of_neg]
    simpa using he

theorem lookupSeries_append_right {s1 : List (Int × Option Int)} {d : Int}
    (h : ∀ p ∈ s1, p.1 ≠ d) (s2 : List (Int × Option Int)) :
    lookupSeries (s1 ++ s2) d = lookupSeries s2 d := by
  induction s1 with
  | nil => rfl
  | cons p rest ih =>
    rw [List.cons_append, show p = (p.1, p.2) from rfl, lookupSeries_cons,
      if_neg (h p (by simp))]
    exact ih (fun q hq => h q (by simp [hq]))

/-- Value of the forward pass at the `i`-th of `n` walked dates: the
`fillStep` assignment at that date, with the `last_known_rating` state
accumulated over the earlier dates. -/
theorem lookupSeries_seriesGo (m : List (Int × Int)) (lk : Option Int)
    (a : Int) (i n : Nat) (h : i < n) :
    lookupSeries (seriesGo m lk (ascRange a n)) (a + i) =
      some ((fillStep m (lkAfter m lk (ascRange a i)) (a + i)).1) := by
  obtain ⟨j, hj⟩ : ∃ j, n - i = j + 1 := ⟨n - i - 1, by omega⟩
  rw [show n = i + (j + 1) by omega, ascRange_append i (j + 1) a,
    seriesGo_append]
  rw [lookupSeries_append_right]
  · rw [show ascRange (a + i) (j + 1) = (a + i) :: ascRange (a + i + 1) j
      from rfl]
    rw [seriesGo, lookupSeries_cons, if_pos rfl]
  · intro p hp
    have hmem : p.1 ∈ (seriesGo m lk (ascRange a i)).map Prod.fst :=
      List.mem_map_of_mem Prod.fst hp
    rw [seriesGo_fst] at hmem
    have := mem_ascRange.1 hmem
    omega

/-! ## C1: shape of the reconstructed series -/

/-- C1 counterexample: the reconstructed series has 31 entries
(`DAYS_BACK = 31`), not 30 — shown at the concrete input of an empty
history with reference date 0. -/
theorem c1_cex :
    (buildSeries [] 0).length = 31 ∧ ¬(buildSeries [] 0).length = 30 := by
  constructor <;> decide

/-- C1 (amended): for every history and reference date, the
reconstructed series covers exactly 31 (not 30) consecutive calendar
dates, strictly increasing by one day each step, ending at the
reference date inclusive; correspondingly each report row carries 31
per-date cells. -/
theorem c1_series_shape (m : List (Int × Int)) (today : Int) :
    (buildSeries m today).map Prod.fst = ascRange (today - 30) 31 ∧
    (buildSeries m today).length = 31 ∧
    List.Chain' (fun x y => y = x + 1) ((buildSeries m today).map Prod.fst) ∧
    ((buildSeries m today).map Prod.fst).getLast? = some today ∧
    ∀ fr, (rowCells fr today).length = 31 := by
  have hfst : (buildSeries m today).map Prod.fst = ascRange (today - 30) 31 := by
    rw [buildSeries, seriesGo_fst, windowDates_eq]
  refine ⟨hfst, ?_, ?_, ?_, ?_⟩
  · have := congrArg List.length hfst
    rwa [List.length_map, ascRange_length] at this
  · rw [hfst]; exact ascRange_chain _ _
  · rw [hfst, show (31 : Nat) = 30 + 1 from rfl, ascRange_getLast]
    norm_num
  · intro fr
    rw [rowCells, List.length_map, windowDates_eq, ascRange_length]

/-! ## C4: the worked scenario -/

/-- C4 counterexample: feeding the scenario's tuples as *raw* (i.e.
zero-based-month) observations, the code normalizes month 8 to
September, so the series value at 2023-08-08 is the unknown sentinel,
not 2430 as the claim states (and the whole claimed window content
fails). -/
theorem c4_cex :
    reconstruct [((2023 : Int), 8, 1, 2400), (2023, 8, 4, 2430), (2023, 8, 11, 2480)]
        (daysFromCivilNat 2023 9 7) =
      some (buildSeries
        [(daysFromCivilNat 2023 9 1, 2400), (daysFromCivilNat 2023 9 4, 2430),
          (daysFromCivilNat 2023 9 11, 2480)] (daysFromCivilNat 2023 9 7)) ∧
    lookupSeries
        ((reconstruct [((2023 : Int), 8, 1, 2400), (2023, 8, 4, 2430), (2023, 8, 11, 2480)]
          (daysFromCivilNat 2023 9 7)).getD [])
        (daysFromCivilNat 2023 8 8) = some none := by
  constructor <;> decide

/-- C4 (amended): with the observations given in the raw zero-based
month encoding `[(2023,7,1,2400), (2023,7,4,2430), (2023,7,11,2480)]`
(i.e. observation dates 2023-08-01, 2023-08-04, 2023-08-11) and
reference date 2023-09-07, the series assigns 2430 to 2023-08-08
through 2023-08-10 (forward-filled from the last pre-window
observation) and 2480 to 2023-08-11 through 2023-09-07. -/
theorem c4_scenario :
    reconstruct [((2023 : Int), 7, 1, 2400), (2023, 7, 4, 2430), (2023, 7, 11, 2480)]
        (daysFromCivilNat 2023 9 7) =
      some ((ascRange (daysFromCivilNat 2023 8 8) 31).map
        (fun d => (d, some (if d < daysFromCivilNat 2023 8 11 then (2430 : Int) else 2480)))) := by
  decide

/-! ## C5: forward-fill between observations -/

/-- C5 counterexample: with a single observation at the reference date
itself (`today = 0`, observation `(0, 999)`), the window dates `-1` and
`0` have no observation strictly between them, yet the series values
differ (`-1` is unknown, `0` is 999): the claim fails because it allows
an observation at `d2` itself. -/
theorem c5_cex :
    ((-1 : Int)) ∈ windowDates 0 ∧ ((0 : Int)) ∈ windowDates 0 ∧
    ([((0 : Int), (999 : Int))].all
      (fun p => !(decide ((-1 : Int) < p.1) && decide (p.1 < 0)))) = true ∧
    lookupSeries (buildSeries [((0 : Int), 999)] 0) (-1) ≠
      lookupSeries (buildSeries [((0 : Int), 999)] 0) 0 := by
  refine ⟨by decide, by decide, by decide, by decide⟩

/-- C5 (amended): for window dates `d1 < d2` with no observation in the
half-open interval `(d1, d2]` (rather than the open interval the claim
states), the reconstructed series takes the same value at both dates. -/
theorem c5_no_obs_between (m : List (Int × Int)) (today d1 d2 : Int)
    (h1 : d1 ∈ windowDates today) (h2 : d2 ∈ windowDates today)
    (hlt : d1 < d2)
    (hno : m.all (fun p => !(decide (d1 < p.1) && decide (p.1 ≤ d2))) = true) :
    lookupSeries (buildSeries m today) d1 =
      lookupSeries (buildSeries m today) d2 := by
  have hnoP : ∀ p ∈ m, ¬(d1 < p.1 ∧ p.1 ≤ d2) := by
    intro p hp
    have := List.all_eq_true.1 hno p hp
    simp at this
    omega
  rw [windowDates_eq] at h1 h2
  obtain ⟨ha1, hb1⟩ := mem_ascRange.1 h1
  obtain ⟨ha2, hb2⟩ := mem_ascRange.1 h2
  set a := today - 30 with ha
  set i := (d1 - a).toNat with hidef
  set j := (d2 - a).toNat with hjdef
  have hd1 : d1 = a + i := by omega
  have hd2 : d2 = a + j := by omega
  have hij : i < j := by omega
  have hj31 : j < 31 := by omega
  have hi31 : i < 31 := by omega
  rw [buildSeries, windowDates_eq, hd1, hd2]
  rw [lookupSeries_seriesGo m _ a i 31 hi31,
    lookupSeries_seriesGo m _ a j 31 hj31]
  set lk0 := lkAfter m (seedRating m today) (ascRange a i) with hlk0
  obtain ⟨k, hk⟩ : ∃ k, j - i = k + 1 := ⟨j - i - 1, by omega⟩
  have hnoobs : ∀ e ∈ ascRange (a + i + 1) k, lookupRating m e = none := by
    intro e he
    obtain ⟨hea, heb⟩ := mem_ascRange.1 he
    apply lookupRating_eq_none
    intro p hp hpe
    exact hnoP p hp ⟨by omega, by omega⟩
  have hd2none : lookupRating m (a + j) = none := by
    apply lookupRating_eq_none
    intro p hp hpe
    exact hnoP p hp ⟨by omega, by omega⟩
  have hstate : lkAfter m (seedRating m today) (ascRange a j) =
      (fillStep m lk0 (a + i)).1 := by
    rw [show ascRange a j = ascRange a i ++ ascRange (a + i) (j - i) by
        rw [← ascRange_append]; congr 1; omega,
      lkAfter_append, ← hlk0, hk,
      show ascRange (a + (i : Int)) (k + 1) =
        (a + (i : Int)) :: ascRange (a + (i : Int) + 1) k from rfl]
    rw [lkAfter, lkAfter_of_no_obs hnoobs, fillStep_fst_eq_snd]
  rw [hstate, fillStep_of_none hd2none]

/-- C5 witness: concrete instance of `c5_no_obs_between` with one
observation at `-28`, `d1 = -27`, `d2 = -26`. -/
theorem c5_witness :
    ((-27 : Int)) ∈ windowDates 0 ∧ ((-26 : Int)) ∈ windowDates 0 ∧
    ([((-28 : Int), (50 : Int))].all
      (fun p => !(decide ((-27 : Int) < p.1) && decide (p.1 ≤ (-26 : Int))))) = true ∧
    lookupSeries (buildSeries [((-28 : Int), 50)] 0) (-27) =
      lookupSeries (buildSeries [((-28 : Int), 50)] 0) (-26) :=
  ⟨by decide, by decide, by decide,
    c5_no_obs_between [((-28 : Int), 50)] 0 (-27) (-26)
      (by decide) (by decide) (by decide) (by decide)⟩

/-! ## C9: observations with rating exactly -1 -/

/-- C9 counterexample: a pre-window observation with rating `-1` seeds
`last_known_rating = -1`, so the series *does* report `-1` at a window
date that carries a `-1` observation. -/
theorem c9_cex :
    lookupRating [((-40 : Int), (-1 : Int)), (-5, -1)] (-5) = some (-1) ∧
    ((-5 : Int)) ∈ windowDates 0 ∧
    lookupSeries (buildSeries [((-40 : Int), (-1 : Int)), (-5, -1)] 0) (-5) =
      some (some (-1)) := by
  refine ⟨by decide, by decide, by decide⟩

theorem seriesGo_congr {m1 m2 : List (Int × Int)} {ds : List Int}
    (h : ∀ d ∈ ds, ∀ lk, fillStep m1 lk d = fillStep m2 lk d) :
    ∀ lk, seriesGo m1 lk ds = seriesGo m2 lk ds := by
  induction ds with
  | nil => intro lk; rfl
  | cons d rest ih =>
    intro lk
    simp only [seriesGo]
    rw [h d (by simp) lk, ih (fun e he lk2 => h e (by simp [he]) lk2)]

theorem lookupRating_filter_ne {m : List (Int × Int)} {d d2 : Int}
    (hne : d2 ≠ d) :
    lookupRating (m.filter (fun p => !(p.1 == d))) d2 = lookupRating m d2 := by
  induction m with
  | nil => rfl
  | cons p rest ih =>
    rw [List.filter_cons]
    by_cases hpd : p.1 = d
    · rw [if_neg (by simp [hpd])]
      rw [ih]
      unfold lookupRating
      rw [List.find?_cons_of_neg _ (by simp [hpd]; exact Ne.symm hne)]
    · rw [if_pos (by simp [hpd])]
      unfold lookupRating
      by_cases hp2 : p.1 = d2
      · rw [List.find?_cons_of_pos _ (by simp [hp2]),
          List.find?_cons_of_pos _ (by simp [hp2])]
      · rw [List.find?_cons_of_neg _ (by simp [hp2]),
          List.find?_cons_of_neg _ (by simp [hp2])]
        simpa [lookupRating] using ih

/-- C9 (amended): an observation with rating exactly `-1` on a window
date is treated as a hole: the whole reconstructed series is the one
obtained with that observation deleted, so the value there is the
forward-filled preceding value (or the unknown sentinel) — which can
itself be `-1` when a pre-window observation carries `-1` — and a
genuine `-1` is indistinguishable from a missing observation. -/
theorem c9_minus_one_hole (m : List (Int × Int)) (today d : Int)
    (hd : d ∈ windowDates today) (h : lookupRating m d = some (-1)) :
    buildSeries m today = buildSeries (m.filter (fun p => !(p.1 == d))) today := by
  have hdw := mem_ascRange.1 ((windowDates_eq today) ▸ hd)
  have hseed : seedRating (m.filter (fun p => !(p.1 == d))) today =
      seedRating m today := by
    unfold seedRating latestBefore
    congr 1
    rw [List.filter_filter]
    refine congrArg maxEntry ?_
    apply List.filter_congr
    intro p hp
    by_cases hc : p.1 < today - 30
    · have hpd : (p.1 == d) = false := by
        simp only [beq_eq_false_iff_ne, ne_eq]
        omega
      simp [hc, hpd]
    · simp [hc]
  have hstep : ∀ e ∈ windowDates today, ∀ lk,
      fillStep m lk e = fillStep (m.filter (fun p => !(p.1 == d))) lk e := by
    intro e he lk
    by_cases hed : e = d
    · subst hed
      have hfilt : lookupRating (m.filter (fun p => !(p.1 == e))) e = none := by
        apply lookupRating_eq_none
        intro p hp
        have := List.of_mem_filter hp
        simpa using this
      rw [fillStep_of_none hfilt]
      simp [fillStep, h]
    · unfold fillStep
      rw [lookupRating_filter_ne hed]
  unfold buildSeries
  rw [hseed]
  exact seriesGo_congr hstep _

/-- C9 witness: concrete instance of `c9_minus_one_hole` with a real
pre-window rating 2000 and a `-1` observation at window date `-5`. -/
theorem c9_witness :
    lookupRating [((-40 : Int), (2000 : Int)), (-5, -1)] (-5) = some (-1) ∧
    ((-5 : Int)) ∈ windowDates 0 ∧
    buildSeries [((-40 : Int), (2000 : Int)), (-5, -1)] 0 =
      buildSeries ([((-40 : Int), (2000 : Int)), (-5, -1)].filter
        (fun p => !(p.1 == (-5 : Int)))) 0 :=
  ⟨by decide, by decide,
    c9_minus_one_hole [((-40 : Int), 2000), (-5, -1)] 0 (-5) (by decide) (by decide)⟩

/-! ## C10: the two distinct unknown markers -/

theorem map_const_replicate {α β : Type} (b : β) :
    ∀ l : List α, l.map (fun _ => b) = List.replicate l.length b
  | [] => rfl
  | x :: xs => by
    simp only [List.map_cons, List.length_cons, List.replicate]
    rw [map_const_replicate b xs]

/-- C10: the unknown marker is not uniform.  (a) A player whose fetch
errored (`None` result) or whose category was absent (`{}` result) gets
31 empty-string cells.  (b) A player with a parsed history but no
observation at or before a window date `d` gets the `"No rating found"`
marker at `d`. -/
theorem c10_markers :
    (∀ today : Int, rowCells none today = List.replicate 31 Cell.blank ∧
      rowCells (some []) today = List.replicate 31 Cell.blank) ∧
    (∀ (m : List (Int × Int)) (today d : Int), d ∈ windowDates today →
      m.all (fun p => decide (d < p.1)) = true →
      cellAt (some (buildSeries m today)) d = Cell.noRating) := by
  constructor
  · intro today
    constructor
    · rw [rowCells, show cellAt none = (fun _ : Int => Cell.blank) from rfl,
        map_const_replicate, windowDates_eq, ascRange_length]
    · rw [rowCells, show cellAt (some []) = (fun _ : Int => Cell.blank) from rfl,
        map_const_replicate, windowDates_eq, ascRange_length]
  · intro m today d hd hno
    have hgt : ∀ p ∈ m, d < p.1 := by
      intro p hp
      have := List.all_eq_true.1 hno p hp
      simpa using this
    have hdw := mem_ascRange.1 ((windowDates_eq today) ▸ hd)
    set a := today - 30 with ha
    set i := (d - a).toNat with hidef
    have hdi : d = a + i := by omega
    have hi31 : i < 31 := by omega
    have hseed : seedRating m today = none := by
      unfold seedRating latestBefore
      rw [List.filter_eq_nil_iff.2]
      · rfl
      · intro p hp
        have := hgt p hp
        simp only [decide_eq_true_eq]
        omega
    have hnoobs : ∀ e ∈ ascRange a i, lookupRating m e = none := by
      intro e he
      obtain ⟨hea, heb⟩ := mem_ascRange.1 he
      exact lookupRating_eq_none (fun p hp hpe => by have := hgt p hp; omega)
    have hdn : lookupRating m (a + (i : Int)) = none := by
      rw [← hdi]
      exact lookupRating_eq_none (fun p hp hpe => by have := hgt p hp; omega)
    have hv : lookupSeries (buildSeries m today) d = some none := by
      rw [buildSeries, windowDates_eq, hseed, hdi,
        lookupSeries_seriesGo m none a i 31 hi31,
        lkAfter_of_no_obs hnoobs, fillStep_of_none hdn]
    simp [cellAt, hv]

/-- C10 witness: instances of both parts of `c10_markers`: blank rows
for the error/no-category results, and `"No rating found"` at window
date `-3` when the only observation is after the whole window. -/
theorem c10_witness :
    (rowCells none 0 = List.replicate 31 Cell.blank ∧
      rowCells (some []) 0 = List.replicate 31 Cell.blank) ∧
    ((-3 : Int)) ∈ windowDates 0 ∧
    ([((5 : Int), (100 : Int))].all (fun p => decide ((-3 : Int) < p.1))) = true ∧
    cellAt (some (buildSeries [((5 : Int), 100)] 0)) (-3) = Cell.noRating :=
  ⟨c10_markers.1 0, by decide, by decide,
    c10_markers.2 [((5 : Int), 100)] 0 (-3) (by decide) (by decide)⟩

/-! ## C2: seeding from pre-window history -/

/-- C2 counterexample: the raw observation `(1969, 11, 2, -1)`
(i.e. 1969-12-02, day number `-30`) is dated strictly before the
claim's window start `0 - 29`, yet with reference date 0 the first
entry of the reconstructed series is the unknown sentinel, not `-1`:
the `-1` rating is the script's in-band missing marker and is dropped
on the first window date. -/
theorem c2_cex :
    reconstruct [((1969 : Int), 11, 2, -1)] 0 =
      some (buildSeries [((-30 : Int), -1)] 0) ∧
    ((-30 : Int)) < 0 - 29 ∧
    lookupSeries (buildSeries [((-30 : Int), -1)] 0) (0 - 30) = some none := by
  refine ⟨by decide, by decide, by decide⟩

theorem pickMax_spec (acc : Option (Int × Int)) (p : Int × Int) :
    ∃ e, pickMax acc p = some e ∧ p.1 ≤ e.1 ∧
      (∀ q, acc = some q → q.1 ≤ e.1) ∧ (e = p ∨ acc = some e) := by
  cases acc with
  | none =>
    refine ⟨p, rfl, le_refl _, ?_, Or.inl rfl⟩
    intro q hq
    exact absurd hq (by simp)
  | some q =>
    by_cases hq : q.1 < p.1
    · refine ⟨p, by simp [pickMax, hq], le_refl _, ?_, Or.inl rfl⟩
      intro q2 hq2
      injection hq2 with h2
      subst h2
      omega
    · refine ⟨q, by simp [pickMax, hq], by omega, ?_, Or.inr rfl⟩
      intro q2 hq2
      injection hq2 with h2
      subst h2
      exact le_refl _

theorem foldl_pickMax_spec (l : List (Int × Int)) :
    ∀ acc e, l.foldl pickMax acc = some e →
      (∀ p ∈ l, p.1 ≤ e.1) ∧ (∀ q, acc = some q → q.1 ≤ e.1) ∧
        (e ∈ l ∨ acc = some e) := by
  induction l with
  | nil =>
    intro acc e h
    have h2 : acc = some e := h
    refine ⟨by simp, ?_, Or.inr h2⟩
    intro q hq
    rw [hq] at h2
    injection h2 with h3
    subst h3
    exact le_refl _
  | cons p rest ih =>
    intro acc e h
    rw [List.foldl_cons] at h
    obtain ⟨hrest, hacc2, hmem2⟩ := ih (pickMax acc p) e h
    obtain ⟨e1, he1, hp1, hq1, hor1⟩ := pickMax_spec acc p
    have he1e : e1.1 ≤ e.1 := hacc2 e1 he1
    refine ⟨?_, ?_, ?_⟩
    · intro x hx
      rcases List.mem_cons.1 hx with rfl | hx2
      · exact le_trans hp1 he1e
      · exact hrest x hx2
    · intro q hq
      exact le_trans (hq1 q hq) he1e
    · rcases hmem2 with hm | hm
      · exact Or.inl (List.mem_cons_of_mem _ hm)
      · rw [he1] at hm
        injection hm with h2
        subst h2
        rcases hor1 with rfl | hacc
        · exact Or.inl (List.mem_cons_self _ _)
        · exact Or.inr hacc

theorem maxEntry_mem {l : List (Int × Int)} {e : Int × Int}
    (h : maxEntry l = some e) : e ∈ l := by
  rcases (foldl_pickMax_spec l none e h).2.2 with hm | hm
  · exact hm
  · cases hm

theorem maxEntry_ge {l : List (Int × Int)} {e : Int × Int}
    (h : maxEntry l = some e) : ∀ p ∈ l, p.1 ≤ e.1 :=
  (foldl_pickMax_spec l none e h).1

theorem eq_of_nodup_keys {m : List (Int × Int)}
    (h : (m.map Prod.fst).Nodup) :
    ∀ {p q : Int × Int}, p ∈ m → q ∈ m → p.1 = q.1 → p = q := by
  induction m with
  | nil =>
    intro p q hp _hq _hk
    cases hp
  | cons x rest ih =>
    rw [List.map_cons, List.nodup_cons] at h
    intro p q hp hq hk
    rcases List.mem_cons.1 hp with rfl | hp2 <;>
      rcases List.mem_cons.1 hq with rfl | hq2
    · rfl
    · exfalso
      apply h.1
      have := List.mem_map_of_mem Prod.fst hq2
      rwa [← hk] at this
    · exfalso
      apply h.1
      have := List.mem_map_of_mem Prod.fst hp2
      rwa [hk] at this
    · exact ih h.2 hp2 hq2 hk

theorem insertLast_keys_nodup {m : List (Int × Int)}
    (h : (m.map Prod.fst).Nodup) (k v : Int) :
    ((insertLast m k v).map Prod.fst).Nodup := by
  by_cases hany : m.any (fun p => p.1 == k) = true
  · have hkeys : ((m.map (fun p => if p.1 == k then (k, v) else p)).map Prod.fst)
        = m.map Prod.fst := by
      rw [List.map_map]
      apply List.map_congr_left
      intro p _hp
      by_cases hpk : p.1 = k
      · simp [hpk]
      · simp [hpk]
    simp only [insertLast, hany, if_true]
    rw [hkeys]
    exact h
  · have hk : k ∉ m.map Prod.fst := by
      intro hmem
      apply hany
      obtain ⟨p, hp, hpk⟩ := List.mem_map.1 hmem
      exact List.any_eq_true.2 ⟨p, hp, by simp [hpk]⟩
    unfold insertLast
    rw [if_neg hany, List.map_append]
    simp only [List.map_cons, List.map_nil]
    rw [List.nodup_append]
    refine ⟨h, List.nodup_singleton k, ?_⟩
    intro x hx hx2
    rw [List.mem_singleton] at hx2
    subst hx2
    exact hk hx

theorem classicalRatingsGo_nodup :
    ∀ (pts : List RawPoint) (acc m : List (Int × Int)),
      (acc.map Prod.fst).Nodup → classicalRatingsGo acc pts = some m →
      (m.map Prod.fst).Nodup := by
  intro pts
  induction pts with
  | nil =>
    intro acc m h hm
    injection hm with h2
    rw [← h2]
    exact h
  | cons q rest ih =>
    intro acc m h hm
    unfold classicalRatingsGo at hm
    cases hnd : normDate q.1 q.2.1 q.2.2.1 with
    | none => rw [hnd] at hm; cases hm
    | some dd =>
      rw [hnd] at hm
      exact ih _ m (insertLast_keys_nodup h dd q.2.2.2) hm

theorem buildSeries_head (m : List (Int × Int)) (today : Int) :
    lookupSeries (buildSeries m today) (today - 30) =
      some ((fillStep m (seedRating m today) (today - 30)).1) := by
  have h := lookupSeries_seriesGo m (seedRating m today) (today - 30) 0 31
    (by omega)
  simp only [ascRange, lkAfter] at h
  rw [buildSeries, windowDates_eq]
  simpa using h

theorem lookupRating_none_forall {m : List (Int × Int)} {d : Int}
    (h : lookupRating m d = none) : ∀ p ∈ m, p.1 ≠ d := by
  intro p hp
  unfold lookupRating at h
  have hf : m.find? (fun p => p.1 == d) = none := by
    cases hf : m.find? (fun p => p.1 == d) with
    | none => rfl
    | some q => rw [hf] at h; cases h
  have := List.find?_eq_none.1 hf p hp
  simpa using this

/-- C2 (amended): if the parsed history has an observation dated
strictly before the claim's window start (equivalently, at or before
`today - 30`), the first entry of the reconstructed series equals the
rating of the chronologically latest such observation — except when
that observation falls exactly on `today - 30` with rating `-1` (the
in-band missing marker), a case the original claim does not survive. -/
theorem c2_first_entry (pts : List RawPoint) (today : Int)
    (m : List (Int × Int)) (e : Int × Int)
    (hm : classicalRatings pts = some m)
    (he : latestAtOrBefore m (today - 30) = some e)
    (hne : ¬(e.1 = today - 30 ∧ e.2 = -1)) :
    lookupSeries (buildSeries m today) (today - 30) = some (some e.2) := by
  have hnodup : (m.map Prod.fst).Nodup :=
    classicalRatingsGo_nodup pts [] m (by simp) hm
  rw [buildSeries_head]
  cases hA : lookupRating m (today - 30) with
  | some r =>
    obtain ⟨p, hpmem, hpk, hpv⟩ := exists_of_lookupRating hA
    have hpf : p ∈ m.filter (fun x => decide (x.1 ≤ today - 30)) :=
      List.mem_filter.2 ⟨hpmem, by simp [hpk]⟩
    have hemem := maxEntry_mem he
    have hege := maxEntry_ge he
    have heK : e.1 ≤ today - 30 := by
      have := List.of_mem_filter hemem
      simpa using this
    have hpe : e.1 = today - 30 :=
      le_antisymm heK (by have := hege p hpf; omega)
    have hep : e = p :=
      eq_of_nodup_keys hnodup (List.mem_of_mem_filter hemem) hpmem
        (by rw [hpe, hpk])
    have hrne : r ≠ -1 := by
      intro hr
      exact hne ⟨hpe, by rw [hep, hpv, hr]⟩
    have hev : e.2 = r := by rw [hep]; exact hpv
    simp [fillStep, hA, hrne, hev]
  | none =>
    have hfeq : m.filter (fun x => decide (x.1 ≤ today - 30)) =
        m.filter (fun x => decide (x.1 < today - 30)) := by
      apply List.filter_congr
      intro p hp
      have hne2 : p.1 ≠ today - 30 := lookupRating_none_forall hA p hp
      rw [decide_eq_decide]
      omega
    have hseed : seedRating m today = some e.2 := by
      unfold seedRating latestBefore
      unfold latestAtOrBefore at he
      rw [← hfeq, he]
      rfl
    simp [fillStep_of_none hA, hseed]

/-- C2 witness: concrete instance of `c2_first_entry`: the raw
observation `(2023, 0, 5, 1500)` parses to day 19362 (2023-01-05),
which is before the window of reference day 19402, and the first series
entry is 1500. -/
theorem c2_witness :
    classicalRatings [((2023 : Int), 0, 5, 1500)] = some [(19362, 1500)] ∧
    latestAtOrBefore [((19362 : Int), (1500 : Int))] (19402 - 30) =
      some (19362, 1500) ∧
    lookupSeries (buildSeries [((19362 : Int), 1500)] 19402) (19402 - 30) =
      some (some 1500) :=
  ⟨by decide, by decide,
    c2_first_entry [((2023 : Int), 0, 5, 1500)] 19402 [(19362, 1500)]
      (19362, 1500) (by decide) (by decide) (by decide)⟩

/-! ## Sort machinery for the aggregation -/

theorem pyLt_eq_some {u v : LV} (hu : u ≠ LV.nrf) (hv : v ≠ LV.nrf) :
    pyLt u v = some (decide (keyI u < keyI v)) := by
  cases u with
  | nrf => exact absurd rfl hu
  | int a =>
    cases v with
    | nrf => exact absurd rfl hv
    | int b => rfl

theorem insertD_perm {x : String × LV} :
    ∀ {l m : List (String × LV)}, insertD x l = some m → m.Perm (x :: l) := by
  intro l
  induction l with
  | nil =>
    intro m h
    injection h with h2
    rw [← h2]
  | cons y ys ih =>
    intro m h
    unfold insertD at h
    cases hp : pyLt y.2 x.2 with
    | none => rw [hp] at h; cases h
    | some b =>
      rw [hp] at h
      cases b with
      | true =>
        injection h with h2
        rw [← h2]
      | false =>
        cases hi : insertD x ys with
        | none => rw [hi] at h; cases h
        | some zs =>
          rw [hi] at h
          injection h with h2
          rw [← h2]
          exact ((ih hi).cons y).trans (List.Perm.swap x y ys)

theorem insertD_int_isSome {x : String × LV} (hx : x.2 ≠ LV.nrf) :
    ∀ {l : List (String × LV)}, (∀ p ∈ l, p.2 ≠ LV.nrf) →
      (insertD x l).isSome = true := by
  intro l
  induction l with
  | nil => intro _; rfl
  | cons y ys ih =>
    intro hall
    unfold insertD
    rw [pyLt_eq_some (hall y (by simp)) hx]
    cases hb : decide (keyI y.2 < keyI x.2) with
    | true => rfl
    | false =>
      cases hi : insertD x ys with
      | none =>
        have := ih (fun p hp => hall p (by simp [hp]))
        rw [hi] at this
        simp at this
      | some zs => rfl

theorem insertD_sorted {x : String × LV} (hx : x.2 ≠ LV.nrf) :
    ∀ {l m : List (String × LV)}, (∀ p ∈ l, p.2 ≠ LV.nrf) →
      List.Pairwise (fun p q => keyI q.2 ≤ keyI p.2) l →
      insertD x l = some m →
      List.Pairwise (fun p q => keyI q.2 ≤ keyI p.2) m := by
  intro l
  induction l with
  | nil =>
    intro m _ _ h
    injection h with h2
    rw [← h2]
    exact List.pairwise_singleton _ _
  | cons y ys ih =>
    intro m hall hsort h
    unfold insertD at h
    rw [pyLt_eq_some (hall y (by simp)) hx] at h
    rcases List.pairwise_cons.1 hsort with ⟨hy, hys⟩
    cases hb : decide (keyI y.2 < keyI x.2) with
    | true =>
      rw [hb] at h
      injection h with h2
      rw [← h2]
      have hyx : keyI y.2 ≤ keyI x.2 := le_of_lt (of_decide_eq_true hb)
      refine List.pairwise_cons.2 ⟨?_, hsort⟩
      intro z hz
      rcases List.mem_cons.1 hz with rfl | hz2
      · exact hyx
      · exact le_trans (hy z hz2) hyx
    | false =>
      rw [hb] at h
      cases hi : insertD x ys with
      | none => rw [hi] at h; cases h
      | some zs =>
        rw [hi] at h
        injection h with h2
        rw [← h2]
        have hxy : keyI x.2 ≤ keyI y.2 := by
          have := of_decide_eq_false hb
          omega
        refine List.pairwise_cons.2
          ⟨?_, ih (fun p hp => hall p (by simp [hp])) hys hi⟩
        intro z hz
        rcases List.mem_cons.1 ((insertD_perm hi).mem_iff.1 hz) with rfl | hz2
        · exact hxy
        · exact hy z hz2

theorem sortDGo_perm :
    ∀ (l acc m : List (String × LV)),
      sortDGo acc l = some m → m.Perm (acc ++ l) := by
  intro l
  induction l with
  | nil =>
    intro acc m h
    injection h with h2
    rw [← h2]
    simp
  | cons x xs ih =>
    intro acc m h
    unfold sortDGo at h
    cases hi : insertD x acc with
    | none => rw [hi] at h; cases h
    | some acc2 =>
      rw [hi] at h
      have h1 := ih acc2 m h
      have h2 : acc2.Perm (x :: acc) := insertD_perm hi
      have h3 : m.Perm ((x :: acc) ++ xs) := h1.trans (h2.append_right xs)
      exact h3.trans List.perm_middle.symm

theorem sortDGo_sorted :
    ∀ (l acc m : List (String × LV)),
      (∀ p ∈ l, p.2 ≠ LV.nrf) → (∀ p ∈ acc, p.2 ≠ LV.nrf) →
      List.Pairwise (fun p q => keyI q.2 ≤ keyI p.2) acc →
      sortDGo acc l = some m →
      List.Pairwise (fun p q => keyI q.2 ≤ keyI p.2) m := by
  intro l
  induction l with
  | nil =>
    intro acc m _ _ hsort h
    injection h with h2
    rw [← h2]
    exact hsort
  | cons x xs ih =>
    intro acc m hall hacc hsort h
    unfold sortDGo at h
    cases hi : insertD x acc with
    | none => rw [hi] at h; cases h
    | some acc2 =>
      rw [hi] at h
      have hacc2 : ∀ p ∈ acc2, p.2 ≠ LV.nrf := by
        intro p hp
        rcases List.mem_cons.1 ((insertD_perm hi).mem_iff.1 hp) with rfl | hp2
        · exact hall p (by simp)
        · exact hacc p hp2
      exact ih acc2 m (fun p hp => hall p (by simp [hp])) hacc2
        (insertD_sorted (hall x (by simp)) hacc hsort hi) h

theorem sortDGo_isSome :
    ∀ (l acc : List (String × LV)),
      (∀ p ∈ l, p.2 ≠ LV.nrf) → (∀ p ∈ acc, p.2 ≠ LV.nrf) →
      (sortDGo acc l).isSome = true := by
  intro l
  induction l with
  | nil => intro acc _ _; rfl
  | cons x xs ih =>
    intro acc hall hacc
    unfold sortDGo
    cases hi : insertD x acc with
    | none =>
      have := insertD_int_isSome (hall x (by simp)) hacc
      rw [hi] at this
      simp at this
    | some acc2 =>
      have hacc2 : ∀ p ∈ acc2, p.2 ≠ LV.nrf := by
        intro p hp
        rcases List.mem_cons.1 ((insertD_perm hi).mem_iff.1 hp) with rfl | hp2
        · exact hall p (by simp)
        · exact hacc p hp2
      exact ih acc2 (fun p hp => hall p (by simp [hp])) hacc2

theorem sorted_unique {m1 m2 : List (String × LV)}
    (hperm : m1.Perm m2)
    (hs1 : List.Pairwise (fun p q => keyI q.2 ≤ keyI p.2) m1)
    (hs2 : List.Pairwise (fun p q => keyI q.2 ≤ keyI p.2) m2)
    (hd1 : List.Pairwise (fun p q : String × LV => keyI p.2 ≠ keyI q.2) m1) :
    m1 = m2 := by
  have hd2 : List.Pairwise (fun p q : String × LV => keyI p.2 ≠ keyI q.2) m2 :=
    (hperm.pairwise_iff (fun hab => Ne.symm hab)).1 hd1
  haveI : IsAntisymm (String × LV)
      (fun p q => keyI q.2 ≤ keyI p.2 ∧ (keyI p.2 = keyI q.2 → p = q)) :=
    ⟨fun a b hab hba => hab.2 (le_antisymm hba.1 hab.1)⟩
  have hr1 : List.Pairwise
      (fun p q : String × LV => keyI q.2 ≤ keyI p.2 ∧ (keyI p.2 = keyI q.2 → p = q)) m1 :=
    (hs1.and hd1).imp (fun h => ⟨h.1, fun heq => absurd heq h.2⟩)
  have hr2 : List.Pairwise
      (fun p q : String × LV => keyI q.2 ≤ keyI p.2 ∧ (keyI p.2 = keyI q.2 → p = q)) m2 :=
    (hs2.and hd2).imp (fun h => ⟨h.1, fun heq => absurd heq h.2⟩)
  exact List.eq_of_perm_of_sorted hperm hr1 hr2

/-! ## C3: determinism of the aggregated report -/

/-- C3 counterexample: two players with the same reference-date rating.
Two completion orders of the *same* per-player results yield different
reports: Python's stable sort breaks the tie by dict-insertion
(completion) order, not by leaderboard rank. -/
theorem c3_cex :
    (["a", "b"] : List String).Perm ["b", "a"] ∧
    generate_rating_csv_rows 0
        (fun _ => some (buildSeries [((0 : Int), 10)] 0)) ["a", "b"] ≠
      generate_rating_csv_rows 0
        (fun _ => some (buildSeries [((0 : Int), 10)] 0)) ["b", "a"] :=
  ⟨List.Perm.swap "b" "a" [], by decide⟩

/-- C3 (amended): the aggregated rows are sorted by reference-date
rating descending with ties following completion order, so the report
is identical across completion orders only when all reference-date
values are integers and pairwise distinct (as Bool-level hypotheses:
no value is the `"No rating found"` string, and equal values imply
equal usernames). -/
theorem c3_deterministic_order (today : Int)
    (fetch : String → Option (List (Int × Option Int)))
    (o1 o2 : List String) (hperm : o1.Perm o2) (hnd : o1.Nodup)
    (hint : o1.all (fun u => !(latestLV (fetch u) today == LV.nrf)) = true)
    (hinj : o1.all (fun u => o1.all (fun v =>
      !(latestLV (fetch u) today == latestLV (fetch v) today) || (u == v))) = true) :
    generate_rating_csv_rows today fetch o1 =
      generate_rating_csv_rows today fetch o2 := by
  have hintP : ∀ u ∈ o1, latestLV (fetch u) today ≠ LV.nrf := by
    intro u hu
    have := List.all_eq_true.1 hint u hu
    simpa using this
  have hinjP : ∀ u ∈ o1, ∀ v ∈ o1,
      latestLV (fetch u) today = latestLV (fetch v) today → u = v := by
    intro u hu v hv heq
    have := List.all_eq_true.1 (List.all_eq_true.1 hinj u hu) v hv
    simp at this
    rcases this with h | h
    · exact absurd heq h
    · exact h
  set f : String → String × LV := fun u => (u, latestLV (fetch u) today) with hf
  have hall1 : ∀ p ∈ o1.map f, p.2 ≠ LV.nrf := by
    intro p hp
    obtain ⟨u, hu, rfl⟩ := List.mem_map.1 hp
    exact hintP u hu
  have hall2 : ∀ p ∈ o2.map f, p.2 ≠ LV.nrf := by
    intro p hp
    obtain ⟨u, hu, rfl⟩ := List.mem_map.1 hp
    exact hintP u (hperm.mem_iff.2 hu)
  obtain ⟨m1, hm1⟩ :=
    Option.isSome_iff_exists.1 (sortDGo_isSome (o1.map f) [] hall1 (by simp))
  obtain ⟨m2, hm2⟩ :=
    Option.isSome_iff_exists.1 (sortDGo_isSome (o2.map f) [] hall2 (by simp))
  have hperm1 : m1.Perm (o1.map f) := by
    simpa using sortDGo_perm (o1.map f) [] m1 hm1
  have hperm2 : m2.Perm (o2.map f) := by
    simpa using sortDGo_perm (o2.map f) [] m2 hm2
  have hs1 := sortDGo_sorted (o1.map f) [] m1 hall1 (by simp) List.Pairwise.nil hm1
  have hs2 := sortDGo_sorted (o2.map f) [] m2 hall2 (by simp) List.Pairwise.nil hm2
  have hd1 : List.Pairwise (fun p q : String × LV => keyI p.2 ≠ keyI q.2) (o1.map f) := by
    rw [List.pairwise_map]
    refine List.Pairwise.imp_of_mem ?_ hnd
    intro u v hu hv huv hkeq
    apply huv
    apply hinjP u hu v hv
    cases hLu : latestLV (fetch u) today with
    | nrf => exact absurd hLu (hintP u hu)
    | int a =>
      cases hLv : latestLV (fetch v) today with
      | nrf => exact absurd hLv (hintP v hv)
      | int b =>
        rw [hf] at hkeq
        simp only [hLu, hLv, keyI] at hkeq
        rw [hkeq]
  have hd1m : List.Pairwise (fun p q : String × LV => keyI p.2 ≠ keyI q.2) m1 :=
    (hperm1.pairwise_iff (fun hab => Ne.symm hab)).2 hd1
  have hmm : m1 = m2 :=
    sorted_unique (hperm1.trans ((hperm.map f).trans hperm2.symm)) hs1 hs2 hd1m
  unfold generate_rating_csv_rows sortD
  rw [← hf, hm1, hm2, hmm]

/-- C3 witness: `c3_deterministic_order` at a concrete instance with
distinct reference-date ratings 20 and 10: both completion orders give
the same report. -/
theorem c3_witness :
    (["a", "b"] : List String).Perm ["b", "a"] ∧
    (["a", "b"] : List String).Nodup ∧
    generate_rating_csv_rows 0
        (fun v => if v == "a" then some (buildSeries [((0 : Int), 20)] 0)
          else some (buildSeries [((0 : Int), 10)] 0)) ["a", "b"] =
      generate_rating_csv_rows 0
        (fun v => if v == "a" then some (buildSeries [((0 : Int), 20)] 0)
          else some (buildSeries [((0 : Int), 10)] 0)) ["b", "a"] :=
  ⟨List.Perm.swap "b" "a" [], by decide,
    c3_deterministic_order 0
      (fun v => if v == "a" then some (buildSeries [((0 : Int), 20)] 0)
        else some (buildSeries [((0 : Int), 10)] 0))
      ["a", "b"] ["b", "a"] (List.Perm.swap "b" "a" []) (by decide)
      (by decide) (by decide)⟩

/-! ## C6: entities with no data for the category -/

/-- C6 counterexample: player `a` has the category present but an empty
observation list (no observation at or before any window date), so its
reference-date value is the string `"No rating found"`; player `b` has
an integer value.  The sort then raises `TypeError` and the run crashes
with no report at all, contradicting the claim that the run still
completes with an all-unknown row. -/
theorem c6_cex :
    unknownData 0 (Outcome.history []) = true ∧
    generate_rating_csv_rows 0
        (fun u => fetch_last_30_day_rating_for_player 0
          (if u == "a" then Outcome.history []
            else Outcome.history [((1970 : Int), 0, 1, 1500)]))
        ["a", "b"] = none := by
  refine ⟨by decide, by decide⟩

theorem insertLast_mem {m : List (Int × Int)} {k v : Int} {p : Int × Int}
    (h : p ∈ insertLast m k v) : p.1 = k ∨ p ∈ m := by
  unfold insertLast at h
  by_cases hany : m.any (fun p => p.1 == k) = true
  · rw [if_pos hany] at h
    rcases List.mem_map.1 h with ⟨x, hx, hxy⟩
    by_cases hxk : x.1 = k
    · rw [if_pos (by simp [hxk])] at hxy
      rw [← hxy]
      exact Or.inl rfl
    · rw [if_neg (by simp [hxk])] at hxy
      rw [← hxy]
      exact Or.inr hx
  · rw [if_neg hany] at h
    rcases List.mem_append.1 h with h2 | h2
    · exact Or.inr h2
    · rw [List.mem_singleton] at h2
      rw [h2]
      exact Or.inl rfl

theorem classicalRatingsGo_none :
    ∀ (pts : List RawPoint) (acc : List (Int × Int)),
      (∃ q ∈ pts, normDate q.1 q.2.1 q.2.2.1 = none) →
      classicalRatingsGo acc pts = none := by
  intro pts
  induction pts with
  | nil =>
    intro acc h
    rcases h with ⟨q, hq, _⟩
    cases hq
  | cons q rest ih =>
    intro acc h
    unfold classicalRatingsGo
    cases hnd : normDate q.1 q.2.1 q.2.2.1 with
    | none => rfl
    | some dd =>
      apply ih
      rcases h with ⟨q2, hq2, hn2⟩
      rcases List.mem_cons.1 hq2 with rfl | hq3
      · rw [hnd] at hn2; cases hn2
      · exact ⟨q2, hq3, hn2⟩

theorem classicalRatingsGo_isSome :
    ∀ (pts : List RawPoint) (acc : List (Int × Int)),
      (∀ q ∈ pts, (normDate q.1 q.2.1 q.2.2.1).isSome = true) →
      (classicalRatingsGo acc pts).isSome = true := by
  intro pts
  induction pts with
  | nil => intro acc _; rfl
  | cons q rest ih =>
    intro acc h
    unfold classicalRatingsGo
    cases hnd : normDate q.1 q.2.1 q.2.2.1 with
    | none =>
      have := h q (by simp)
      rw [hnd] at this
      simp at this
    | some dd => exact ih _ (fun q2 hq2 => h q2 (by simp [hq2]))

theorem classicalRatingsGo_keys :
    ∀ (pts : List RawPoint) (acc m : List (Int × Int)),
      classicalRatingsGo acc pts = some m →
      ∀ p ∈ m, p ∈ acc ∨ ∃ q ∈ pts, normDate q.1 q.2.1 q.2.2.1 = some p.1 := by
  intro pts
  induction pts with
  | nil =>
    intro acc m h p hp
    injection h with h2
    rw [← h2] at hp
    exact Or.inl hp
  | cons q rest ih =>
    intro acc m h p hp
    unfold classicalRatingsGo at h
    cases hnd : normDate q.1 q.2.1 q.2.2.1 with
    | none => rw [hnd] at h; cases h
    | some dd =>
      rw [hnd] at h
      rcases ih _ m h p hp with hin | ⟨q2, hq2, hn2⟩
      · rcases insertLast_mem hin with hkey | hacc
        · exact Or.inr ⟨q, by simp, by rw [hnd, hkey]⟩
        · exact Or.inl hacc
      · exact Or.inr ⟨q2, by simp [hq2], hn2⟩

theorem seriesGo_all_none {m : List (Int × Int)} :
    ∀ {ds : List Int}, (∀ d ∈ ds, lookupRating m d = none) →
      seriesGo m none ds = ds.map (fun d => (d, (none : Option Int))) := by
  intro ds
  induction ds with
  | nil => intro _; rfl
  | cons d rest ih =>
    intro h
    show (d, (fillStep m none d).1) :: seriesGo m (fillStep m none d).2 rest = _
    rw [fillStep_of_none (h d (by simp))]
    simp only [List.map_cons]
    show (d, (none : Option Int)) :: seriesGo m none rest = _
    rw [ih (fun e he => h e (by simp [he]))]

theorem lookupSeries_map_none {ds : List Int} {d : Int} (h : d ∈ ds) :
    lookupSeries (ds.map (fun e => (e, (none : Option Int)))) d = some none := by
  induction ds with
  | nil => cases h
  | cons e rest ih =>
    simp only [List.map_cons]
    by_cases hed : e = d
    · rw [lookupSeries_cons, if_pos hed]
    · rw [lookupSeries_cons, if_neg hed]
      apply ih
      rcases List.mem_cons.1 h with rfl | h2
      · exact absurd rfl hed
      · exact h2

theorem rowCells_not_rating {fr : Option (List (Int × Option Int))}
    {today : Int}
    (h : fr = none ∨ fr = some [] ∨
      fr = some ((windowDates today).map (fun e => (e, (none : Option Int))))) :
    (rowCells fr today).all (fun c => !c.isRating) = true := by
  apply List.all_eq_true.2
  intro c hc
  simp only [rowCells] at hc
  obtain ⟨d, hd, rfl⟩ := List.mem_map.1 hc
  rcases h with rfl | rfl | rfl
  · rfl
  · rfl
  · simp [cellAt, lookupSeries_map_none hd, Cell.isRating]

/-- C6 corrected: when the category is absent (or all observations are
unparseable or dated after the reference date), the player's row — *if*
the aggregation's sort does not crash on a mixed `int`/`str` comparison
— is present in the report and shows no actual rating; the original
claim's "the run still completes" fails in general (see the
counterexample), so completion of the aggregation is a hypothesis
here. -/
theorem c6_no_data_rows (today : Int) (oc : String → Outcome)
    (order : List String) (u : String) (rows : List (String × List Cell))
    (hu : u ∈ order) (hdata : unknownData today (oc u) = true)
    (hagg : generate_rating_csv_rows today
        (fun v => fetch_last_30_day_rating_for_player today (oc v)) order =
      some rows) :
    rows.length = order.length ∧
    (u, rowCells (fetch_last_30_day_rating_for_player today (oc u)) today) ∈ rows ∧
    (rowCells (fetch_last_30_day_rating_for_player today (oc u)) today).all
      (fun c => !c.isRating) = true := by
  unfold generate_rating_csv_rows sortD at hagg
  set f : String → String × LV :=
    fun v => (v, latestLV (fetch_last_30_day_rating_for_player today (oc v)) today)
    with hf
  cases hs : sortDGo [] (order.map f) with
  | none => rw [hs] at hagg; cases hagg
  | some ms =>
    rw [hs] at hagg
    injection hagg with h2
    have hperm2 : ms.Perm (order.map f) := by
      simpa using sortDGo_perm (order.map f) [] ms hs
    refine ⟨?_, ?_, ?_⟩
    · rw [← h2, List.length_map, hperm2.length_eq, List.length_map]
    · rw [← h2]
      have hmem : f u ∈ ms := hperm2.mem_iff.2 (List.mem_map_of_mem f hu)
      have hmap := List.mem_map_of_mem
        (fun p : String × LV =>
          (p.1, rowCells (fetch_last_30_day_rating_for_player today (oc p.1)) today))
        hmem
      simpa using hmap
    · apply rowCells_not_rating
      cases hoc : oc u with
      | err =>
        rw [hoc] at hdata
        simp [unknownData] at hdata
      | noCategory => exact Or.inr (Or.inl rfl)
      | history pts =>
        rw [hoc] at hdata
        simp only [unknownData] at hdata
        by_cases hinv : ∃ q ∈ pts, normDate q.1 q.2.1 q.2.2.1 = none
        · left
          show reconstruct pts today = none
          unfold reconstruct classicalRatings
          rw [classicalRatingsGo_none pts [] hinv]
          rfl
        · push_neg at hinv
          have hvalid : ∀ q ∈ pts, (normDate q.1 q.2.1 q.2.2.1).isSome = true := by
            intro q hq
            cases hn : normDate q.1 q.2.1 q.2.2.1 with
            | none => exact absurd hn (hinv q hq)
            | some dd => rfl
          obtain ⟨m2, hm2⟩ :=
            Option.isSome_iff_exists.1 (classicalRatingsGo_isSome pts [] hvalid)
          have hkeys : ∀ p ∈ m2, today < p.1 := by
            intro p hp
            rcases classicalRatingsGo_keys pts [] m2 hm2 p hp with hin | ⟨q, hq, hn⟩
            · cases hin
            · have hall := List.all_eq_true.1 hdata q hq
              rw [hn] at hall
              simpa using hall
          right; right
          show reconstruct pts today = some _
          unfold reconstruct classicalRatings
          rw [hm2]
          simp only [Option.map_some', Option.some.injEq]
          have hseed : seedRating m2 today = none := by
            unfold seedRating latestBefore
            rw [List.filter_eq_nil_iff.2]
            · rfl
            · intro p hp
              have := hkeys p hp
              simp only [decide_eq_true_eq]
              omega
          have hnoobs : ∀ d ∈ windowDates today, lookupRating m2 d = none := by
            intro d hd
            obtain ⟨hda, hdb⟩ := mem_ascRange.1 ((windowDates_eq today) ▸ hd)
            exact lookupRating_eq_none
              (fun p hp hpe => by have := hkeys p hp; omega)
          rw [buildSeries, hseed, seriesGo_all_none hnoobs]

/-- C6 witness: `c6_no_data_rows` at a concrete one-player run whose
category is absent: the aggregation succeeds and the row is 31 blank
cells. -/
theorem c6_witness :
    ("a" : String) ∈ (["a"] : List String) ∧
    unknownData 0 Outcome.noCategory = true ∧
    generate_rating_csv_rows 0
        (fun v => fetch_last_30_day_rating_for_player 0
          ((fun _ : String => Outcome.noCategory) v)) ["a"] =
      some [("a",
        rowCells (fetch_last_30_day_rating_for_player 0 Outcome.noCategory) 0)] ∧
    ([("a", rowCells (fetch_last_30_day_rating_for_player 0 Outcome.noCategory) 0)].length
        = (["a"] : List String).length ∧
      ("a", rowCells (fetch_last_30_day_rating_for_player 0 Outcome.noCategory) 0) ∈
        [("a", rowCells (fetch_last_30_day_rating_for_player 0 Outcome.noCategory) 0)] ∧
      (rowCells (fetch_last_30_day_rating_for_player 0 Outcome.noCategory) 0).all
        (fun c => !c.isRating) = true) :=
  ⟨by decide, by decide, by decide,
    c6_no_data_rows 0 (fun _ => Outcome.noCategory) ["a"] "a"
      [("a", rowCells (fetch_last_30_day_rating_for_player 0 Outcome.noCategory) 0)]
      (by decide) (by decide) (by decide)⟩

/-! ## C7: the leaderboard fetch -/

/-- C7 counterexample: two schema-mismatched but well-parsed responses
on which `fetch_top_classical_players` raises (`TypeError`) instead of
returning an empty list: a bare number (`'users' in 5` raises), and an
object whose `users` value is a number (`data['users'][:n]` raises). -/
theorem c7_cex :
    (fetch_top_classical_players 50 (Resp.ok (Json.num 5))).isNone = true ∧
    (fetch_top_classical_players 50
      (Resp.ok (Json.obj [("users", Json.num 5)]))).isNone = true := by
  refine ⟨by decide, by decide⟩

/-- C7 (amended): on transport failure, an unparseable body, or any
parsed payload on which the `'users'` membership test is false (in
particular an object without the key), the function returns the empty
list and emits a diagnostic without raising; other schema mismatches
can raise a `TypeError` to the caller. -/
theorem c7_no_raise (n : Nat) (r : Resp)
    (h : r = Resp.transportErr ∨ r = Resp.parseErr ∨
      ∃ j, r = Resp.ok j ∧ pyContains "users" j = some false) :
    fetch_top_classical_players n r = some (Json.arr [], true) := by
  rcases h with rfl | rfl | ⟨j, rfl, hj⟩
  · rfl
  · rfl
  · simp [fetch_top_classical_players, hj]

/-- C7 witness: `c7_no_raise` on a parse failure. -/
theorem c7_witness :
    (Resp.parseErr = Resp.transportErr ∨ Resp.parseErr = Resp.parseErr ∨
      ∃ j, Resp.parseErr = Resp.ok j ∧ pyContains "users" j = some false) ∧
    fetch_top_classical_players 50 Resp.parseErr = some (Json.arr [], true) :=
  ⟨Or.inr (Or.inl rfl), c7_no_raise 50 Resp.parseErr (Or.inr (Or.inl rfl))⟩

/-! ## C8: month normalization and invalid observations -/

/-- C8 counterexample: the raw observation `(2023, 12, 1, 2400)` has no
valid calendar date (zero-based month 12 normalizes to 13), and its
presence makes the *whole* reconstruction return `None` — the valid
observation `(2023, 0, 5, 1500)` alone would have produced a series, so
invalid observations are not individually discarded. -/
theorem c8_cex :
    normDate 2023 12 1 = none ∧
    reconstruct [((2023 : Int), 0, 5, 1500), (2023, 12, 1, 2400)] 19380 = none ∧
    (reconstruct [((2023 : Int), 0, 5, 1500)] 19380).isSome = true := by
  refine ⟨by decide, by decide, by decide⟩

/-- C8 (amended): each observation's zero-based month is normalized by
`+1` — every date key of the parsed history is the `normDate` image of
some raw observation — but an observation that cannot be parsed as a
valid calendar date is not discarded individually: it aborts the whole
reconstruction (`ValueError` caught, the function returns `None`). -/
theorem c8_parse (pts : List RawPoint) (today : Int) :
    (pts.any (fun q => (normDate q.1 q.2.1 q.2.2.1).isNone) = true →
      reconstruct pts today = none) ∧
    (∀ m, classicalRatings pts = some m →
      m.all (fun p =>
        pts.any (fun q => normDate q.1 q.2.1 q.2.2.1 == some p.1)) = true) := by
  constructor
  · intro h
    have hex : ∃ q ∈ pts, normDate q.1 q.2.1 q.2.2.1 = none := by
      obtain ⟨q, hq, hn⟩ := List.any_eq_true.1 h
      exact ⟨q, hq, by simpa using hn⟩
    unfold reconstruct classicalRatings
    rw [classicalRatingsGo_none pts [] hex]
    rfl
  · intro m hm
    apply List.all_eq_true.2
    intro p hp
    rcases classicalRatingsGo_keys pts [] m hm p hp with hin | ⟨q, hq, hn⟩
    · cases hin
    · exact List.any_eq_true.2 ⟨q, hq, by simp [hn]⟩

/-- C8 witness: `c8_parse` at the concrete inputs of the
counterexample: the mixed list aborts, and the valid singleton's date
key 19362 is the normalized (`0 ↦ 1`, i.e. January) image of its raw
observation. -/
theorem c8_witness :
    ([((2023 : Int), 0, 5, 1500), (2023, 12, 1, 2400)].any
      (fun q => (normDate q.1 q.2.1 q.2.2.1).isNone)) = true ∧
    reconstruct [((2023 : Int), 0, 5, 1500), (2023, 12, 1, 2400)] 19380 = none ∧
    classicalRatings [((2023 : Int), 0, 5, 1500)] = some [(19362, 1500)] ∧
    ([((19362 : Int), (1500 : Int))].all (fun p =>
      [((2023 : Int), 0, 5, 1500)].any
        (fun q => normDate q.1 q.2.1 q.2.2.1 == some p.1))) = true :=
  ⟨by decide,
    (c8_parse [((2023 : Int), 0, 5, 1500), (2023, 12, 1, 2400)] 19380).1 (by decide),
    by decide,
    (c8_parse [((2023 : Int), 0, 5, 1500)] 19380).2 [(19362, 1500)] (by decide)⟩

end ChessApi
